import Mathlib

/-!
Verification of the TMSU tag-implication closure and query-rewriting engine.

The definitions below are a shallow embedding of the Go sources:
  * `src/src/tmsu/storage/file.go` — the file store's query path, the closure
    expander (`addImpliedTags*`, `applyImplicationsFor*`) and path handling
    (`relPath`, `absPath`);
  * `src/unnamed/part_000` (package `database`) — the implication store
    (`ImplicationsFor`, `AddImplication`, `DeleteImplication`).
Parts of the repository that are not under `src/` (the `entities` helpers, the
SQL driver, `common/path`) are modelled from the specification; each such
definition carries a doc comment starting with `Modelled from the spec:`.
-/

/-- A tag row: `entities.Tag` is `{Id, Name}`. -/
structure Tag where
  id : Nat
  name : String
deriving DecidableEq, Repr

/-- A value row: `entities.Value` is `{Id, Name}`. The id 0 with empty name is
the "no value" sentinel (the zero `entities.Value` the Go code leaves in place
when the LEFT OUTER JOIN produced NULL). -/
structure Value where
  id : Nat
  name : String
deriving DecidableEq, Repr

/-- An implication as materialized by `readImplication`:
`entities.Implication{ImplyingTag, ImplyingValue, ImpliedTag, ImpliedValue}`. -/
structure Implication where
  implyingTag : Tag
  implyingValue : Value
  impliedTag : Tag
  impliedValue : Value
deriving DecidableEq, Repr

/-- The query expression tree (`tmsu/query`): the closed variant set is
Empty, Tag, Comparison, And, Or, Not. In Go the tree is an open interface,
so a foreign implementation could reach the expander's `default:` branch;
the `unsupported` constructor stands for any such variant outside the
closed set. -/
inductive Expression where
  | empty : Expression
  | tag (name : String) : Expression
  | comparison (tagName operator valueName : String) : Expression
  | and (leftOperand rightOperand : Expression) : Expression
  | or (leftOperand rightOperand : Expression) : Expression
  | not (operand : Expression) : Expression
  | unsupported (description : String) : Expression
deriving DecidableEq, Repr

/-- Modelled from the spec: `entities.Implications.ThatImply` is not under
`src/` (only its callers are). Per the spec's closure algorithm, it returns
the implications of the set whose implied side equals the given tag name and
value name pair (value name empty for a valueless pair). -/
def thatImply (implications : List Implication) (tagName valueName : String) :
    List Implication :=
  implications.filter fun imp =>
    imp.impliedTag.name == tagName && imp.impliedValue.name == valueName

/-- The duplicate test of `applyImplicationsForTagAndValue`'s inner
`predicate` closure: two implications share their implying (tag, value) id
pair. -/
def sameImplying (a b : Implication) : Bool :=
  a.implyingTag.id == b.implyingTag.id && a.implyingValue.id == b.implyingValue.id

/-- The OR-term emitted for one worklist entry (file.go:268-276): a bare
`TagExpression` when the implying value id is 0, otherwise a
`ComparisonExpression` for equality with the implying value. -/
def implyingTerm (relevantImplication : Implication) : Expression :=
  if relevantImplication.implyingValue.id != 0 then
    Expression.comparison relevantImplication.implyingTag.name "="
      relevantImplication.implyingValue.name
  else
    Expression.tag relevantImplication.implyingTag.name

/-- The inner loop of `applyImplicationsForTagAndValue` (file.go:279-287):
append each further implication to the worklist unless an entry (past or
pending, including ones appended earlier in this same inner loop) already
shares its implying (tag, value) id pair. -/
def appendFresh (relevantImplications furtherImplications : List Implication) :
    List Implication :=
  furtherImplications.foldl
    (fun acc furtherImplication =>
      if acc.any fun implication => sameImplying implication furtherImplication then
        acc
      else
        acc ++ [furtherImplication])
    relevantImplications

/-- The worklist loop of `applyImplicationsForTagAndValue` (file.go:265-288).
The Go loop iterates an index over a slice that grows while it is being
iterated; here the loop carries explicit fuel and returns `none` when the
fuel runs out. `expandLoop_terminates` below proves that the fuel supplied
by `applyImplicationsForTagAndValue` always suffices, so the `none` case is
dead code there. Besides the accumulated expression the final worklist is
returned, so that theorems can speak about the processed entries; the Go
function returns only the expression. -/
def expandLoop (implications : List Implication) :
    Nat → Expression → List Implication → Nat → Option (Expression × List Implication)
  | 0, _, _, _ => none
  | fuel + 1, expression, relevantImplications, index =>
    if h : index < relevantImplications.length then
      expandLoop implications fuel
        (Expression.or expression (implyingTerm relevantImplications[index]))
        (appendFresh relevantImplications
          (thatImply implications relevantImplications[index].implyingTag.name
            relevantImplications[index].implyingValue.name))
        (index + 1)
    else
      some (expression, relevantImplications)

/-- Fuel that always suffices for `expandLoop`: the worklist only ever grows
by implications whose implying pair is not yet present, so it gains at most
one entry per implication of the set. -/
def expandFuel (implications relevantImplications : List Implication) : Nat :=
  implications.length + relevantImplications.length + 1

/-- `applyImplicationsForTagAndValue` (file.go:261-291): seed the worklist
with every implication whose implied side equals the leaf's pair, then OR the
accumulated expression with one term per worklist entry, appending newly
discovered implications along the way. -/
def applyImplicationsForTagAndValue (expression : Expression)
    (tagName valueName : String) (implications : List Implication) : Expression :=
  let relevantImplications := thatImply implications tagName valueName
  ((expandLoop implications (expandFuel implications relevantImplications)
      expression relevantImplications 0).map Prod.fst).getD expression

/-- `applyImplicationsForTag` (file.go:248-250): a bare tag leaf expands with
an empty value name. -/
def applyImplicationsForTag (name : String) (implications : List Implication) :
    Expression :=
  applyImplicationsForTagAndValue (Expression.tag name) name "" implications

/-- `applyImplicationsForComparison` (file.go:252-259): only equality
comparisons are expanded; any other operator returns the leaf unchanged. -/
def applyImplicationsForComparison (tagName operator valueName : String)
    (implications : List Implication) : Expression :=
  if operator != "=" then
    Expression.comparison tagName operator valueName
  else
    applyImplicationsForTagAndValue
      (Expression.comparison tagName operator valueName) tagName valueName implications

/-- `addImpliedTagsRecursive` (file.go:223-246): structure-preserving descent
over And/Or/Not, leaf expansion for Tag and Comparison, Empty unchanged, and
a `panic` (modelled as `none`) for any variant outside the closed set. -/
def addImpliedTagsRecursive (expression : Expression)
    (implications : List Implication) : Option Expression :=
  match expression with
  | Expression.or leftOperand rightOperand => do
    let leftOperand ← addImpliedTagsRecursive leftOperand implications
    let rightOperand ← addImpliedTagsRecursive rightOperand implications
    pure (Expression.or leftOperand rightOperand)
  | Expression.and leftOperand rightOperand => do
    let leftOperand ← addImpliedTagsRecursive leftOperand implications
    let rightOperand ← addImpliedTagsRecursive rightOperand implications
    pure (Expression.and leftOperand rightOperand)
  | Expression.not operand => do
    let operand ← addImpliedTagsRecursive operand implications
    pure (Expression.not operand)
  | Expression.tag name => some (applyImplicationsForTag name implications)
  | Expression.comparison tagName operator valueName =>
    some (applyImplicationsForComparison tagName operator valueName implications)
  | Expression.empty => some expression
  | Expression.unsupported _ => none

/-- `addImpliedTags` (file.go:214-221), embedded faithfully including its
slip: when retrieving the implications fails, the Go code evaluates
`fmt.Errorf("could not retrieve tag implications: %v", err)` but discards the
result and returns `nil` as the error, proceeding with the `nil` implication
slice. So a retrieval failure is swallowed and the expansion runs against an
empty implication set. The outer `Option` is the Go panic that
`addImpliedTagsRecursive` can raise; the inner `Except` is the Go `error`
return value. -/
def addImpliedTags (implicationsResult : Except String (List Implication))
    (expression : Expression) : Option (Except String Expression) :=
  let implications :=
    match implicationsResult with
    | Except.ok implications => implications
    | Except.error _ => []
  (addImpliedTagsRecursive expression implications).map Except.ok

/-- The left-nested OR-terms of an expression: `or a b` contributes the terms
of `a` followed by `b`; anything else is a single term. The expander builds
its result exactly in this left-nested shape (`Or(accumulated, newTerm)`). -/
def orTerms : Expression → List Expression
  | Expression.or leftOperand rightOperand => orTerms leftOperand ++ [rightOperand]
  | expression => [expression]

/-- Count of implications of the set whose implying pair is not yet present
in the worklist; the termination measure of `expandLoop` is this count plus
the unprocessed part of the worklist. -/
def freshCount (implications relevantImplications : List Implication) : Nat :=
  implications.countP fun i =>
    !(relevantImplications.any fun implication => sameImplying implication i)

/-- Well-formedness of an implication set as it comes out of the database:
rows are distinct (the implication table is keyed by all four id columns) and
tag/value ids and names determine each other (ids are primary keys and names
are unique in the tag and value tables). -/
def WellFormed (implications : List Implication) : Prop :=
  implications.Nodup ∧
  (∀ a ∈ implications, ∀ b ∈ implications,
    ∀ t ∈ [a.implyingTag, a.impliedTag], ∀ u ∈ [b.implyingTag, b.impliedTag],
      (t.id = u.id ↔ t.name = u.name)) ∧
  (∀ a ∈ implications, ∀ b ∈ implications,
    ∀ v ∈ [a.implyingValue, a.impliedValue], ∀ w ∈ [b.implyingValue, b.impliedValue],
      (v.id = w.id ↔ v.name = w.name))

/-- The "no value" sentinel: zero id, empty name. -/
def noValue : Value := ⟨0, ""⟩

/-- Concrete implication set of the specification's closure example:
`dog→animal`, `cat→animal`, `puppy→dog`, all valueless. -/
def dogImpliesAnimal : Implication := ⟨⟨1, "dog"⟩, noValue, ⟨4, "animal"⟩, noValue⟩

/-- The `cat→animal` implication of the closure example. -/
def catImpliesAnimal : Implication := ⟨⟨2, "cat"⟩, noValue, ⟨4, "animal"⟩, noValue⟩

/-- The `puppy→dog` implication of the closure example. -/
def puppyImpliesDog : Implication := ⟨⟨3, "puppy"⟩, noValue, ⟨1, "dog"⟩, noValue⟩

/-- The closure example's implication set, in the order the claim lists it. -/
def demoImplications : List Implication :=
  [dogImpliesAnimal, catImpliesAnimal, puppyImpliesDog]

/-- An implication involving the tag `size` on its implied side, used to show
that non-equality comparisons are not expanded even when such implications
exist: `big → size=100`. -/
def bigImpliesSize : Implication := ⟨⟨7, "big"⟩, noValue, ⟨5, "size"⟩, ⟨9, "100"⟩⟩

/-- A file row: `entities.File` is
`{Id, Directory, Name, Fingerprint, ModTime, Size, IsDir}` (the fingerprint
is its string form, the mod time an abstract stamp). -/
structure File where
  id : Nat
  directory : String
  name : String
  fingerprint : String
  modTime : Nat
  size : Int
  isDir : Bool
deriving DecidableEq, Repr

/-- The path separator (`filepath.Separator` on the POSIX platforms TMSU
targets). -/
def filepathSeparator : Char := '/'

/-- Modelled from the spec: `common/path.RelTo` is not under `src/`. Per the
spec, a path that falls under the root is converted to root-relative form
(never beginning with a separator, obtained by dropping the root and the
separator after it); a path that does not fall under the root is preserved
as given. -/
def relTo (path root : String) : String :=
  if (root ++ "/").data.isPrefixOf path.data then
    ⟨path.data.drop (root ++ "/").data.length⟩
  else
    path

/-- `Storage.relPath` (file.go:192-198): empty paths are not altered; other
paths are made relative to the storage root. -/
def relPath (rootPath path : String) : String :=
  if path = "" then "" else relTo path rootPath

/-- Modelled from the spec: Go's `path/filepath.Join` (standard library).
For the clean root and clean relative directory the store passes it, joining
is concatenation with a single separator; an empty element is skipped. -/
def filepathJoin (a b : String) : String :=
  if a = "" then b else if b = "" then a else a ++ "/" ++ b

/-- `Storage.absPath`'s per-file rewrite (file.go:206-212): an empty
directory or one that already begins with the separator is returned
unchanged; otherwise the storage root is joined onto it. -/
def absPathFile (rootPath : String) (file : File) : File :=
  if file.directory = "" ∨ file.directory.data.head? = some filepathSeparator then
    file
  else
    { file with directory := filepathJoin rootPath file.directory }

/-- `Storage.absPath` (file.go:206-212) including the `nil` file case. -/
def absPath (rootPath : String) : Option File → Option File
  | none => none
  | some file => some (absPathFile rootPath file)

/-- `Storage.absPaths` (file.go:200-204): rewrite every file of the list. -/
def absPaths (rootPath : String) (files : List File) : List File :=
  files.map (absPathFile rootPath)

/-- Modelled from the spec: `database.InsertFile` is not under `src/`. Per
the spec it persists the file row, splitting the root-relative path it is
given into its `directory` and `name` components at the last separator. -/
def splitPath (path : String) : String × String :=
  let revChars := path.data.reverse
  let revName := revChars.takeWhile fun c => c ≠ '/'
  if revName.length = revChars.length then
    ("", path)
  else
    (⟨(revChars.drop (revName.length + 1)).reverse⟩, ⟨revName.reverse⟩)

/-- Modelled from the spec: the `database` query functions used by the file
store's query path (`database.QueryFiles`, `database.QueryFileCount`) are
not under `src/`. Per the spec they translate the (already expanded)
expression into a storage query over the file/tag tables, scoped to the
given relative path — so they are modelled as opaque functions of the
expression, the path and the sort order over the non-implication part of
the database state. -/
structure FileStore where
  queryFiles : Expression → String → String → Except String (List File)
  queryFileCount : Expression → String → Except String Nat

/-- The database state as the file store's query path sees it: the
non-implication portion, and the result of retrieving the implication set
(`storage.Implications`, i.e. the implication table's contents or a storage
error). -/
structure Database where
  fileStore : FileStore
  implicationsResult : Except String (List Implication)

/-- `Storage.QueryFiles` (file.go:121-134): unless `explicitOnly`, the
expression is first passed through `addImpliedTags`; the query then runs
against the root-relative path and the resulting files are made absolute.
The outer `Option` is a propagated panic; the `Except` is the Go error. -/
def QueryFiles (rootPath : String) (db : Database) (expression : Expression)
    (path : String) (explicitOnly : Bool) (sort : String) :
    Option (Except String (List File)) :=
  match
    (if explicitOnly then some (Except.ok expression)
     else addImpliedTags db.implicationsResult expression) with
  | none => none
  | some (Except.error e) => some (Except.error e)
  | some (Except.ok expression) =>
    some ((db.fileStore.queryFiles expression (relPath rootPath path) sort).map
      (absPaths rootPath))

/-- `Storage.QueryFileCount` (file.go:107-118): same shape as `QueryFiles`
without the sort and the absolute-path rewrite. -/
def QueryFileCount (rootPath : String) (db : Database) (expression : Expression)
    (path : String) (explicitOnly : Bool) : Option (Except String Nat) :=
  match
    (if explicitOnly then some (Except.ok expression)
     else addImpliedTags db.implicationsResult expression) with
  | none => none
  | some (Except.error e) => some (Except.error e)
  | some (Except.ok expression) =>
    some (db.fileStore.queryFileCount expression (relPath rootPath path))

/-- A file store that always answers successfully with no files, used to
exhibit concrete runs of the query path. -/
def emptyFileStore : FileStore :=
  ⟨fun _ _ _ => Except.ok [], fun _ _ => Except.ok 0⟩

/-- `entities.TagValuePair`: `{TagId, ValueId}`. -/
structure TagValuePair where
  tagId : Nat
  valueId : Nat
deriving DecidableEq, Repr

/-- A row of the `implication` table:
`(tag_id, value_id, implied_tag_id, implied_value_id)`. -/
structure ImplicationRow where
  tagId : Nat
  valueId : Nat
  impliedTagId : Nat
  impliedValueId : Nat
deriving DecidableEq, Repr

/-- The row addressed by an (implying pair, implied pair) argument pair. -/
def implicationRowOf (tagValuePair impliedTagValuePair : TagValuePair) :
    ImplicationRow :=
  ⟨tagValuePair.tagId, tagValuePair.valueId,
    impliedTagValuePair.tagId, impliedTagValuePair.valueId⟩

/-- `AddImplication` (part_000:95-106): `INSERT OR IGNORE` of the four ids.
Modelled from the spec for the part outside `src/`: the schema keys the
`implication` table by all four id columns ("an implication is uniquely
identified by its four id fields"), so the insert is ignored exactly when an
identical row already exists. -/
def AddImplication (table : List ImplicationRow)
    (tagValuePair impliedTagValuePair : TagValuePair) : List ImplicationRow :=
  let row := implicationRowOf tagValuePair impliedTagValuePair
  if row ∈ table then table else table ++ [row]

/-- Outcome of `DeleteImplication`: success, the recoverable
`NoSuchImplicationError{pair, impliedPair}`, or the `panic` on more than one
affected row. -/
inductive DeleteOutcome where
  | ok : DeleteOutcome
  | noSuchImplication (tagValuePair impliedTagValuePair : TagValuePair) : DeleteOutcome
  | panicked : DeleteOutcome
deriving DecidableEq, Repr

/-- `DeleteImplication` (part_000:109-134): delete every row equal to the
four ids, then inspect the number of affected rows — 0 is
`NoSuchImplication`, more than 1 is a panic, exactly 1 is success. The
second component is the table after the DELETE statement ran. -/
def DeleteImplication (table : List ImplicationRow)
    (tagValuePair impliedTagValuePair : TagValuePair) :
    DeleteOutcome × List ImplicationRow :=
  let row := implicationRowOf tagValuePair impliedTagValuePair
  let remaining := table.filter fun r => r ≠ row
  let rowsAffected := table.length - remaining.length
  let outcome :=
    if rowsAffected = 0 then
      DeleteOutcome.noSuchImplication tagValuePair impliedTagValuePair
    else if rowsAffected > 1 then
      DeleteOutcome.panicked
    else
      DeleteOutcome.ok
  (outcome, remaining)

/-- The SELECT/JOIN prefix of `ImplicationsFor` (part_000:53-63), up to and
including the `WHERE ` keyword after which the loop appends the condition. -/
def implicationsForSqlBase : String :=
  "\nSELECT tag.id, tag.name,\n       value.id, value.name,\n       implied_tag.id, implied_tag.name,\n       implied_value.id, implied_value.name\nFROM implication\nINNER JOIN tag tag ON implication.tag_id = tag.id\nLEFT OUTER JOIN value value ON implication.value_id = value.id\nINNER JOIN tag implied_tag ON implication.implied_tag_id = implied_tag.id\nLEFT OUTER JOIN value implied_value ON implication.implied_value_id = implied_value.id\nWHERE "

/-- The ORDER BY clause appended after the condition (part_000:77-78). -/
def implicationsForOrderBy : String :=
  "\nORDER BY tag.name, value.name, implied_tag.name, implied_value.name"

/-- One equality clause of the WHERE condition (part_000:71). -/
def implicationClause : String :=
  "(implication.tag_id = ? AND implication.value_id = ?)"

/-- The condition/parameter building loop of `ImplicationsFor`
(part_000:65-75): each pair appends one clause (preceded by `   OR ` for
every pair but the first) and its two parameters, in input order. -/
def implicationsForLoop :
    List TagValuePair → Nat → String → List Nat → String × List Nat
  | [], _, sql, params => (sql, params)
  | tagValuePair :: rest, index, sql, params =>
    let sql := if index > 0 then sql ++ "   OR " else sql
    let sql := sql ++ implicationClause
    implicationsForLoop rest (index + 1) sql
      (params ++ [tagValuePair.tagId, tagValuePair.valueId])

/-- A chain of `   OR `-prefixed clauses, the closed form of what the loop
appends after its first clause. -/
def orChain : Nat → String
  | 0 => ""
  | n + 1 => "   OR " ++ implicationClause ++ orChain n

/-- The disjunction with exactly one clause per pair that a non-empty input
produces: a first clause followed by an `   OR `-chain. -/
def disjunctionOf : Nat → String
  | 0 => ""
  | n + 1 => implicationClause ++ orChain n

/-- `ImplicationsFor` (part_000:52-92), returning the SQL text and parameter
list handed to the store. Modelled from the spec for the part outside
`src/`: the transactional store propagates failures to the caller, and
preparing a statement whose `WHERE` keyword is followed immediately by the
`ORDER BY` clause instead of a condition — the only malformed text this
function can build, produced exactly when the loop appended nothing — fails
with a storage error. -/
def ImplicationsFor (tagValuePairs : List TagValuePair) :
    Except String (String × List Nat) :=
  let built := implicationsForLoop tagValuePairs 0 implicationsForSqlBase []
  if built.1 = implicationsForSqlBase then
    Except.error "SQL syntax error near ORDER"
  else
    Except.ok (built.1 ++ implicationsForOrderBy, built.2)

/-- C1: for the implication set {dog→animal, cat→animal, puppy→dog} (all
valueless), expanding the leaf `Tag(animal)` yields exactly
`Or(Or(Or(animal, dog), cat), puppy)` — logically `animal OR dog OR cat OR
puppy`, with the OR-terms appended in breadth-first discovery order (animal's
direct implying tags dog and cat before the transitively reached puppy), each
combined as `Or(accumulated, newTerm)`. -/
theorem closure_example_animal :
    applyImplicationsForTag "animal" demoImplications =
      Expression.or
        (Expression.or
          (Expression.or (Expression.tag "animal") (Expression.tag "dog"))
          (Expression.tag "cat"))
        (Expression.tag "puppy") := by
  decide

/-- An implication always shares its own implying pair. -/
theorem sameImplying_self (a : Implication) : sameImplying a a = true := by
  simp [sameImplying]

/-- `thatImply` only selects implications of the given set. -/
theorem thatImply_mem {implications : List Implication} {tagName valueName : String}
    {f : Implication} (h : f ∈ thatImply implications tagName valueName) :
    f ∈ implications :=
  (List.mem_filter.mp h).1

/-- Appending a worklist entry whose implying pair was fresh strictly
decreases the count of set members with fresh implying pairs. -/
theorem freshCount_append_lt {implications q : List Implication} {f : Implication}
    (hf : f ∈ implications)
    (hq : (q.any fun implication => sameImplying implication f) = false) :
    freshCount implications (q ++ [f]) < freshCount implications q := by
  obtain ⟨s, t, rfl⟩ := List.append_of_mem hf
  have hmono : ∀ i,
      (!((q ++ [f]).any fun implication => sameImplying implication i)) = true →
      (!(q.any fun implication => sameImplying implication i)) = true := by
    intro i hi
    simp only [List.any_append, List.any_cons, List.any_nil, Bool.or_false,
      Bool.not_eq_true', Bool.or_eq_false_iff] at hi
    simp [hi.1]
  have hpf : (!(q.any fun implication => sameImplying implication f)) = true := by
    simp [hq]
  have hpf' :
      ¬((!((q ++ [f]).any fun implication => sameImplying implication f)) = true) := by
    simp [List.any_append, sameImplying_self]
  have e1 : List.countP
        (fun i => !((q ++ [f]).any fun implication => sameImplying implication i))
        (f :: t) =
      List.countP
        (fun i => !((q ++ [f]).any fun implication => sameImplying implication i)) t :=
    List.countP_cons_of_neg _ _ hpf'
  have e2 : List.countP
        (fun i => !(q.any fun implication => sameImplying implication i)) (f :: t) =
      List.countP
        (fun i => !(q.any fun implication => sameImplying implication i)) t + 1 :=
    List.countP_cons_of_pos _ _ hpf
  have hs := List.countP_mono_left (l := s) fun x _ => hmono x
  have ht := List.countP_mono_left (l := t) fun x _ => hmono x
  unfold freshCount
  rw [List.countP_append, List.countP_append, e1, e2]
  omega

/-- One step of `appendFresh`. -/
theorem appendFresh_cons (q : List Implication) (f : Implication)
    (rest : List Implication) :
    appendFresh q (f :: rest) =
      appendFresh
        (if q.any fun implication => sameImplying implication f then q
         else q ++ [f]) rest := rfl

/-- The loop measure never grows across `appendFresh`: every appended entry
is a set member whose implying pair was fresh, so it pays for the length it
adds. -/
theorem appendFresh_measure (implications : List Implication) :
    ∀ fs q : List Implication, (∀ f ∈ fs, f ∈ implications) →
      freshCount implications (appendFresh q fs) + (appendFresh q fs).length ≤
        freshCount implications q + q.length := by
  intro fs
  induction fs with
  | nil => intro q _; simp [appendFresh]
  | cons f rest ih =>
    intro q hmem
    rw [appendFresh_cons]
    by_cases hany : (q.any fun implication => sameImplying implication f) = true
    · rw [if_pos hany]
      exact ih q fun x hx => hmem x (List.mem_cons_of_mem f hx)
    · have hfalse : (q.any fun implication => sameImplying implication f) = false := by
        simpa using hany
      rw [if_neg hany]
      have hlt := freshCount_append_lt (hmem f (List.mem_cons_self f rest)) hfalse
      have hrec := ih (q ++ [f]) fun x hx => hmem x (List.mem_cons_of_mem f hx)
      have hlen : (q ++ [f]).length = q.length + 1 := by simp
      omega

/-- `appendFresh` only appends entries. -/
theorem appendFresh_length :
    ∀ fs q : List Implication, q.length ≤ (appendFresh q fs).length := by
  intro fs
  induction fs with
  | nil => intro q; simp [appendFresh]
  | cons f rest ih =>
    intro q
    rw [appendFresh_cons]
    by_cases hany : (q.any fun implication => sameImplying implication f) = true
    · rw [if_pos hany]; exact ih q
    · rw [if_neg hany]
      calc q.length ≤ (q ++ [f]).length := by simp
        _ ≤ _ := ih (q ++ [f])

/-- The worklist before `appendFresh` is an initial segment of the worklist
after it. -/
theorem appendFresh_extends :
    ∀ fs q : List Implication, ∃ t, appendFresh q fs = q ++ t := by
  intro fs
  induction fs with
  | nil => intro q; exact ⟨[], by simp [appendFresh]⟩
  | cons f rest ih =>
    intro q
    rw [appendFresh_cons]
    by_cases hany : (q.any fun implication => sameImplying implication f) = true
    · rw [if_pos hany]; exact ih q
    · rw [if_neg hany]
      obtain ⟨t, ht⟩ := ih (q ++ [f])
      exact ⟨f :: t, by simp [ht]⟩

/-- Termination of the worklist loop: whenever the fuel exceeds the measure
(count of fresh implying pairs plus unprocessed worklist entries), the loop
reaches the end of the worklist and returns a result, for every implication
set — including cyclic ones. -/
theorem expandLoop_terminates (implications : List Implication) :
    ∀ (fuel : Nat) (expression : Expression) (q : List Implication) (index : Nat),
      index ≤ q.length →
      freshCount implications q + q.length < fuel + index →
      ∃ result finalList,
        expandLoop implications fuel expression q index = some (result, finalList) := by
  intro fuel
  induction fuel with
  | zero => intro e q i hi hlt; exfalso; omega
  | succ fuel ih =>
    intro e q i hi hlt
    rw [expandLoop]
    by_cases h : i < q.length
    · rw [dif_pos h]
      have hsub : ∀ f ∈ thatImply implications q[i].implyingTag.name
          q[i].implyingValue.name, f ∈ implications := fun f hf => thatImply_mem hf
      have hmeas := appendFresh_measure implications _ q hsub
      have hlen := appendFresh_length
        (thatImply implications q[i].implyingTag.name q[i].implyingValue.name) q
      exact ih _ _ _ (by omega) (by omega)
    · rw [dif_neg h]
      exact ⟨e, q, rfl⟩

/-- Shape of a completed run: the result is the seed expression OR'd with
one term per worklist entry, and the final worklist extends the initial
one. -/
theorem expandLoop_shape (implications : List Implication) :
    ∀ (fuel : Nat) (expression result : Expression)
      (q finalList : List Implication) (index : Nat),
      expandLoop implications fuel expression q index = some (result, finalList) →
      orTerms result =
        orTerms expression ++ (finalList.drop index).map implyingTerm ∧
      ∃ t, q ++ t = finalList := by
  intro fuel
  induction fuel with
  | zero => intro e r q fl i h; simp [expandLoop] at h
  | succ fuel ih =>
    intro e r q fl i h
    rw [expandLoop] at h
    by_cases hlt : i < q.length
    · rw [dif_pos hlt] at h
      obtain ⟨hterms, t, hext⟩ := ih _ _ _ _ _ h
      obtain ⟨u, hu⟩ := appendFresh_extends
        (thatImply implications q[i].implyingTag.name q[i].implyingValue.name) q
      rw [hu] at hext
      have hflq : q ++ (u ++ t) = fl := by rw [← List.append_assoc]; exact hext
      subst hflq
      constructor
      · have hifl : i < (q ++ (u ++ t)).length := by
          simp only [List.length_append]; omega
        have hdrop : (q ++ (u ++ t)).drop i =
            (q ++ (u ++ t))[i] :: (q ++ (u ++ t)).drop (i + 1) :=
          List.drop_eq_getElem_cons hifl
        have hget : (q ++ (u ++ t))[i] = q[i] := List.getElem_append_left hlt
        rw [hterms, hdrop, hget, List.map_cons]
        simp [orTerms, List.append_assoc]
      · exact ⟨u ++ t, rfl⟩
    · rw [dif_neg hlt] at h
      simp only [Option.some.injEq, Prod.mk.injEq] at h
      obtain ⟨he, hq⟩ := h
      subst he; subst hq
      constructor
      · rw [List.drop_eq_nil_of_le (by omega)]
        simp
      · exact ⟨[], by simp⟩

/-- `appendFresh` preserves pairwise-distinct implying pairs: it appends
only entries whose implying pair matches no present entry. -/
theorem appendFresh_pairwise :
    ∀ fs q : List Implication,
      q.Pairwise (fun a b => sameImplying a b = false) →
      (appendFresh q fs).Pairwise (fun a b => sameImplying a b = false) := by
  intro fs
  induction fs with
  | nil => intro q hq; simpa [appendFresh] using hq
  | cons f rest ih =>
    intro q hq
    rw [appendFresh_cons]
    by_cases hany : (q.any fun implication => sameImplying implication f) = true
    · rw [if_pos hany]; exact ih q hq
    · have hfalse : (q.any fun implication => sameImplying implication f) = false := by
        simpa using hany
      rw [if_neg hany]
      refine ih (q ++ [f]) ?_
      rw [List.pairwise_append]
      refine ⟨hq, by simp, ?_⟩
      intro a ha b hb
      have hb' : b = f := by simpa using hb
      subst hb'
      have hnot := List.any_eq_false.mp hfalse a ha
      simpa using hnot

/-- The loop preserves pairwise-distinct implying pairs on the worklist. -/
theorem expandLoop_pairwise (implications : List Implication) :
    ∀ (fuel : Nat) (expression result : Expression)
      (q finalList : List Implication) (index : Nat),
      expandLoop implications fuel expression q index = some (result, finalList) →
      q.Pairwise (fun a b => sameImplying a b = false) →
      finalList.Pairwise (fun a b => sameImplying a b = false) := by
  intro fuel
  induction fuel with
  | zero => intro e r q fl i h; simp [expandLoop] at h
  | succ fuel ih =>
    intro e r q fl i h hq
    rw [expandLoop] at h
    by_cases hlt : i < q.length
    · rw [dif_pos hlt] at h
      exact ih _ _ _ _ _ h (appendFresh_pairwise _ q hq)
    · rw [dif_neg hlt] at h
      simp only [Option.some.injEq, Prod.mk.injEq] at h
      exact h.2 ▸ hq

/-- Tags agreeing on both fields are equal. -/
theorem tag_eq_of {t u : Tag} (hid : t.id = u.id) (hname : t.name = u.name) :
    t = u := by
  cases t; cases u; simp_all

/-- Values agreeing on both fields are equal. -/
theorem value_eq_of {v w : Value} (hid : v.id = w.id) (hname : v.name = w.name) :
    v = w := by
  cases v; cases w; simp_all

/-- Implications agreeing on all four components are equal. -/
theorem implication_eq_of {a b : Implication}
    (h1 : a.implyingTag = b.implyingTag) (h2 : a.implyingValue = b.implyingValue)
    (h3 : a.impliedTag = b.impliedTag) (h4 : a.impliedValue = b.impliedValue) :
    a = b := by
  cases a; cases b; simp_all

/-- In a well-formed implication set the seed worklist (all implications
whose implied side is the leaf's pair) has pairwise-distinct implying
pairs: two such entries sharing an implying pair would be the same row. -/
theorem thatImply_pairwise {implications : List Implication}
    {tagName valueName : String} (hwf : WellFormed implications) :
    (thatImply implications tagName valueName).Pairwise
      (fun a b => sameImplying a b = false) := by
  obtain ⟨hnodup, htags, hvalues⟩ := hwf
  have hseed : (thatImply implications tagName valueName).Nodup :=
    hnodup.filter _
  refine hseed.imp_of_mem ?_
  intro a b ha hb hne
  cases hsame : sameImplying a b
  · rfl
  · exfalso
    apply hne
    simp only [sameImplying, Bool.and_eq_true, beq_iff_eq] at hsame
    obtain ⟨hidT, hidV⟩ := hsame
    simp only [thatImply, List.mem_filter, Bool.and_eq_true, beq_iff_eq] at ha hb
    obtain ⟨hamem, hatag, haval⟩ := ha
    obtain ⟨hbmem, hbtag, hbval⟩ := hb
    refine implication_eq_of ?_ ?_ ?_ ?_
    · exact tag_eq_of hidT
        ((htags a hamem b hbmem a.implyingTag (by simp) b.implyingTag (by simp)).mp hidT)
    · exact value_eq_of hidV
        ((hvalues a hamem b hbmem a.implyingValue (by simp) b.implyingValue (by simp)).mp hidV)
    · have hname : a.impliedTag.name = b.impliedTag.name := by rw [hatag, hbtag]
      exact tag_eq_of
        ((htags a hamem b hbmem a.impliedTag (by simp) b.impliedTag (by simp)).mpr hname)
        hname
    · have hname : a.impliedValue.name = b.impliedValue.name := by rw [haval, hbval]
      exact value_eq_of
        ((hvalues a hamem b hbmem a.impliedValue (by simp) b.impliedValue (by simp)).mpr hname)
        hname

/-- C2: for every well-formed implication set — including ones whose
implication graph contains cycles — expanding a leaf's (tag, value) pair
terminates (the worklist loop completes within the fuel
`applyImplicationsForTagAndValue` supplies and returns its accumulated
expression), and each distinct implying (tag id, value id) pair appears at
most once as an OR-term of the result: the appended OR-terms are exactly one
term per final worklist entry, and the final worklist entries have
pairwise-distinct implying id pairs, because an implication is appended only
when no past or pending entry shares its implying pair. -/
theorem closure_terminates_without_duplicates
    (implications : List Implication) (tagName valueName : String)
    (leaf : Expression) (hwf : WellFormed implications) :
    ∃ (result : Expression) (finalList : List Implication),
      expandLoop implications
          (expandFuel implications (thatImply implications tagName valueName))
          leaf (thatImply implications tagName valueName) 0 =
        some (result, finalList) ∧
      applyImplicationsForTagAndValue leaf tagName valueName implications = result ∧
      orTerms result = orTerms leaf ++ finalList.map implyingTerm ∧
      finalList.Pairwise (fun a b => sameImplying a b = false) := by
  have hc : freshCount implications (thatImply implications tagName valueName) ≤
      implications.length := by
    unfold freshCount; exact List.countP_le_length _
  obtain ⟨result, finalList, heq⟩ :=
    expandLoop_terminates implications
      (expandFuel implications (thatImply implications tagName valueName)) leaf
      (thatImply implications tagName valueName) 0 (Nat.zero_le _)
      (by unfold expandFuel; omega)
  refine ⟨result, finalList, heq, ?_, ?_, ?_⟩
  · simp only [applyImplicationsForTagAndValue]
    rw [heq]
    rfl
  · have hshape := (expandLoop_shape implications _ _ _ _ _ _ heq).1
    simpa using hshape
  · exact expandLoop_pairwise implications _ _ _ _ _ _ heq (thatImply_pairwise hwf)

/-- Witness for C2 at the concrete closure example. -/
theorem closure_terminates_without_duplicates_witness :
    ∃ (result : Expression) (finalList : List Implication),
      expandLoop demoImplications
          (expandFuel demoImplications (thatImply demoImplications "animal" ""))
          (Expression.tag "animal") (thatImply demoImplications "animal" "") 0 =
        some (result, finalList) ∧
      applyImplicationsForTagAndValue (Expression.tag "animal") "animal" ""
          demoImplications = result ∧
      orTerms result = orTerms (Expression.tag "animal") ++ finalList.map implyingTerm ∧
      finalList.Pairwise (fun a b => sameImplying a b = false) :=
  closure_terminates_without_duplicates demoImplications "animal" ""
    (Expression.tag "animal") (by unfold WellFormed; decide)

/-- C4: a Comparison leaf whose operator is not `=` is returned unchanged by
leaf expansion, whatever the implication set — even one whose implications
involve the leaf's tag; and the recursive traversal likewise returns the
leaf untouched (only Tag leaves and equality Comparison leaves are
expanded). -/
theorem comparison_non_equality_unchanged
    (tagName operator valueName : String) (implications : List Implication)
    (hop : operator ≠ "=") :
    applyImplicationsForComparison tagName operator valueName implications =
      Expression.comparison tagName operator valueName ∧
    addImpliedTagsRecursive (Expression.comparison tagName operator valueName)
        implications =
      some (Expression.comparison tagName operator valueName) := by
  have hbne : (operator != "=") = true := by simpa using hop
  have h1 : applyImplicationsForComparison tagName operator valueName implications =
      Expression.comparison tagName operator valueName := by
    unfold applyImplicationsForComparison
    rw [if_pos hbne]
  refine ⟨h1, ?_⟩
  simp only [addImpliedTagsRecursive]
  rw [h1]

/-- Witness for C4 at `Comparison(size, >, 100)` against an implication set
containing an implication whose implied side involves the tag `size`. -/
theorem comparison_non_equality_unchanged_witness :
    applyImplicationsForComparison "size" ">" "100" [bigImpliesSize] =
      Expression.comparison "size" ">" "100" ∧
    addImpliedTagsRecursive (Expression.comparison "size" ">" "100")
        [bigImpliesSize] =
      some (Expression.comparison "size" ">" "100") :=
  comparison_non_equality_unchanged "size" ">" "100" [bigImpliesSize] (by decide)

/-- C5: the traversal is structure-preserving on internal nodes — an And/Or/
Not node succeeds exactly when its operands do, reconstructing the same node
kind around the independently rewritten operands; Empty passes through
unchanged; a variant outside the closed set fails fatally (the Go `panic`,
modelled as `none`) instead of being silently ignored. -/
theorem traversal_structure_preserving
    (implications : List Implication) (l r operand e : Expression)
    (description : String) :
    (addImpliedTagsRecursive (Expression.and l r) implications = some e ↔
      ∃ el er, addImpliedTagsRecursive l implications = some el ∧
        addImpliedTagsRecursive r implications = some er ∧
        e = Expression.and el er) ∧
    (addImpliedTagsRecursive (Expression.or l r) implications = some e ↔
      ∃ el er, addImpliedTagsRecursive l implications = some el ∧
        addImpliedTagsRecursive r implications = some er ∧
        e = Expression.or el er) ∧
    (addImpliedTagsRecursive (Expression.not operand) implications = some e ↔
      ∃ eo, addImpliedTagsRecursive operand implications = some eo ∧
        e = Expression.not eo) ∧
    addImpliedTagsRecursive Expression.empty implications = some Expression.empty ∧
    addImpliedTagsRecursive (Expression.unsupported description) implications =
      none := by
  refine ⟨?_, ?_, ?_, rfl, rfl⟩
  · cases h1 : addImpliedTagsRecursive l implications <;>
      cases h2 : addImpliedTagsRecursive r implications <;>
      simp [addImpliedTagsRecursive, h1, h2, eq_comm]
  · cases h1 : addImpliedTagsRecursive l implications <;>
      cases h2 : addImpliedTagsRecursive r implications <;>
      simp [addImpliedTagsRecursive, h1, h2, eq_comm]
  · cases h1 : addImpliedTagsRecursive operand implications <;>
      simp [addImpliedTagsRecursive, h1, eq_comm]

/-- C3 (the code swallows the error): when retrieving the implication set
fails, `addImpliedTags` evaluates `fmt.Errorf` but discards it and returns a
`nil` error, so `QueryFiles`/`QueryFileCount` run the query against an empty
implication set and report success instead of propagating the storage
error. -/
theorem implication_retrieval_error_swallowed :
    addImpliedTags (Except.error "disk I/O error") (Expression.tag "a") =
      some (Except.ok (Expression.tag "a")) ∧
    QueryFiles "/root" ⟨emptyFileStore, Except.error "disk I/O error"⟩
        (Expression.tag "a") "" false "name" =
      some (Except.ok []) ∧
    QueryFileCount "/root" ⟨emptyFileStore, Except.error "disk I/O error"⟩
        (Expression.tag "a") "" false =
      some (Except.ok 0) :=
  ⟨rfl, rfl, rfl⟩

/-- Splitting a table by an exact row: the row's multiplicity plus the size
of the rows that differ from it account for the whole table, so the length
drop across the DELETE's filter is exactly the row's multiplicity. -/
theorem count_add_filter_length (row : ImplicationRow) :
    ∀ table : List ImplicationRow,
      table.count row + (table.filter fun r => r ≠ row).length = table.length := by
  intro table
  induction table with
  | nil => rfl
  | cons x xs ih =>
    rw [List.filter_cons]
    by_cases hx : x = row
    · subst hx
      rw [if_neg (by simp)]
      simp only [List.count_cons_self, List.length_cons]
      omega
    · rw [if_pos (by simp [hx])]
      simp only [List.length_cons, List.count_cons_of_ne fun h => hx h.symm]
      omega

/-- C6: `Delete(pair, impliedPair)` returns `NoSuchImplication` exactly when
no stored row matches the four ids, and then the table is unchanged; when
exactly one row matches it is removed (its count drops to zero, every other
row's count is untouched) and the call succeeds; when more than one row
matches the operation panics instead of attempting partial recovery. -/
theorem delete_exact_match (table : List ImplicationRow)
    (tagValuePair impliedTagValuePair : TagValuePair) :
    ((DeleteImplication table tagValuePair impliedTagValuePair).1 =
        DeleteOutcome.noSuchImplication tagValuePair impliedTagValuePair ↔
      implicationRowOf tagValuePair impliedTagValuePair ∉ table) ∧
    (implicationRowOf tagValuePair impliedTagValuePair ∉ table →
      (DeleteImplication table tagValuePair impliedTagValuePair).2 = table) ∧
    (table.count (implicationRowOf tagValuePair impliedTagValuePair) = 1 →
      (DeleteImplication table tagValuePair impliedTagValuePair).1 =
        DeleteOutcome.ok ∧
      (DeleteImplication table tagValuePair impliedTagValuePair).2.count
        (implicationRowOf tagValuePair impliedTagValuePair) = 0 ∧
      ∀ r : ImplicationRow, r ≠ implicationRowOf tagValuePair impliedTagValuePair →
        (DeleteImplication table tagValuePair impliedTagValuePair).2.count r =
          table.count r) ∧
    (1 < table.count (implicationRowOf tagValuePair impliedTagValuePair) →
      (DeleteImplication table tagValuePair impliedTagValuePair).1 =
        DeleteOutcome.panicked) := by
  have hcf := count_add_filter_length
    (implicationRowOf tagValuePair impliedTagValuePair) table
  have hra : table.length -
      (table.filter fun r =>
        r ≠ implicationRowOf tagValuePair impliedTagValuePair).length =
      table.count (implicationRowOf tagValuePair impliedTagValuePair) := by
    omega
  simp only [DeleteImplication]
  rw [hra]
  refine ⟨?_, ?_, ?_, ?_⟩
  · by_cases h0 :
        table.count (implicationRowOf tagValuePair impliedTagValuePair) = 0
    · rw [if_pos h0]
      simp [List.count_eq_zero.mp h0]
    · rw [if_neg h0]
      have hmem : implicationRowOf tagValuePair impliedTagValuePair ∈ table :=
        List.count_pos_iff.mp (by omega)
      by_cases h1 :
          table.count (implicationRowOf tagValuePair impliedTagValuePair) > 1
      · rw [if_pos h1]
        simp [hmem]
      · rw [if_neg h1]
        simp [hmem]
  · intro hnot
    refine List.filter_eq_self.mpr ?_
    intro a ha
    simp only [ne_eq, decide_eq_true_eq]
    intro heq
    exact hnot (heq ▸ ha)
  · intro h1
    refine ⟨?_, ?_, ?_⟩
    · rw [if_neg (by omega), if_neg (by omega)]
    · refine List.count_eq_zero.mpr ?_
      intro hmem
      have hcond := (List.mem_filter.mp hmem).2
      simp at hcond
    · intro r hr
      exact List.count_filter (by simpa using hr)
  · intro h1
    rw [if_neg (by omega), if_pos (by omega)]

/-- Witness for C6: deleting from an empty table leaves it unchanged. -/
theorem delete_exact_match_witness :
    (DeleteImplication [] (⟨1, 0⟩ : TagValuePair) (⟨2, 0⟩ : TagValuePair)).2 = [] :=
  (delete_exact_match [] ⟨1, 0⟩ ⟨2, 0⟩).2.1 (by decide)

/-- C7: `Add(pair, impliedPair)` is idempotent — with the row already
present the insert is ignored and never an error — so adding the same
implication twice leaves exactly one stored row with those four ids. -/
theorem add_idempotent (table : List ImplicationRow)
    (tagValuePair impliedTagValuePair : TagValuePair) :
    AddImplication (AddImplication table tagValuePair impliedTagValuePair)
        tagValuePair impliedTagValuePair =
      AddImplication table tagValuePair impliedTagValuePair ∧
    (table.count (implicationRowOf tagValuePair impliedTagValuePair) ≤ 1 →
      (AddImplication (AddImplication table tagValuePair impliedTagValuePair)
          tagValuePair impliedTagValuePair).count
        (implicationRowOf tagValuePair impliedTagValuePair) = 1) := by
  by_cases hmem : implicationRowOf tagValuePair impliedTagValuePair ∈ table
  · have h1 : AddImplication table tagValuePair impliedTagValuePair = table := by
      simp only [AddImplication]
      rw [if_pos hmem]
    rw [h1, h1]
    refine ⟨rfl, fun hle => ?_⟩
    have hpos : 0 < table.count (implicationRowOf tagValuePair impliedTagValuePair) :=
      List.count_pos_iff.mpr hmem
    omega
  · have h1 : AddImplication table tagValuePair impliedTagValuePair =
        table ++ [implicationRowOf tagValuePair impliedTagValuePair] := by
      simp only [AddImplication]
      rw [if_neg hmem]
    have hmem2 : implicationRowOf tagValuePair impliedTagValuePair ∈
        table ++ [implicationRowOf tagValuePair impliedTagValuePair] := by simp
    have h2 : AddImplication
        (table ++ [implicationRowOf tagValuePair impliedTagValuePair])
        tagValuePair impliedTagValuePair =
        table ++ [implicationRowOf tagValuePair impliedTagValuePair] := by
      simp only [AddImplication]
      rw [if_pos hmem2]
    rw [h1, h2]
    refine ⟨rfl, fun hle => ?_⟩
    rw [List.count_append, List.count_eq_zero_of_not_mem hmem]
    simp

/-- Witness for C7: two adds to the empty table store the row exactly
once. -/
theorem add_idempotent_witness :
    (AddImplication (AddImplication [] ⟨1, 0⟩ ⟨2, 0⟩) ⟨1, 0⟩ ⟨2, 0⟩).count
        (implicationRowOf ⟨1, 0⟩ ⟨2, 0⟩) = 1 :=
  (add_idempotent [] ⟨1, 0⟩ ⟨2, 0⟩).2 (by decide)

/-- C8: storing `/root/sub/pic.jpg` with root `/root` converts the path to
the root-relative `sub/pic.jpg`, whose directory component is `sub` — no
leading separator; materializing the file joins the stored root back onto
the relative directory, reconstructing `/root/sub`; a directory that is
empty or already absolute (begins with a separator) is returned unchanged by
materialization. -/
theorem path_round_trip :
    relPath "/root" "/root/sub/pic.jpg" = "sub/pic.jpg" ∧
    (splitPath "sub/pic.jpg").1 = "sub" ∧
    ¬("sub".data.head? = some filepathSeparator) ∧
    absPathFile "/root" ⟨1, "sub", "pic.jpg", "", 0, 0, false⟩ =
      ⟨1, "/root/sub", "pic.jpg", "", 0, 0, false⟩ ∧
    (∀ (rootPath : String) (file : File), file.directory = "" →
      absPathFile rootPath file = file) ∧
    (∀ (rootPath : String) (file : File),
      file.directory.data.head? = some filepathSeparator →
      absPathFile rootPath file = file) := by
  refine ⟨by decide, by decide, by decide, by decide, ?_, ?_⟩
  · intro rootPath file h
    unfold absPathFile
    rw [if_pos (Or.inl h)]
  · intro rootPath file h
    unfold absPathFile
    rw [if_pos (Or.inr h)]

/-- Witness for C8: an empty directory and an already-absolute directory
pass through materialization unchanged. -/
theorem path_round_trip_witness :
    absPathFile "/x" ⟨2, "", "n", "", 0, 0, false⟩ = ⟨2, "", "n", "", 0, 0, false⟩ ∧
    absPathFile "/x" ⟨3, "/abs", "n", "", 0, 0, false⟩ =
      ⟨3, "/abs", "n", "", 0, 0, false⟩ :=
  ⟨path_round_trip.2.2.2.2.1 "/x" ⟨2, "", "n", "", 0, 0, false⟩ rfl,
    path_round_trip.2.2.2.2.2 "/x" ⟨3, "/abs", "n", "", 0, 0, false⟩ (by decide)⟩

/-- C9: with `explicitOnly` set, `QueryFiles` and `QueryFileCount` never
read the implication side of the database state, so two states sharing the
same file store — however their implication tables (or even the success of
retrieving them) differ — produce identical results for every expression,
scope path and sort order. -/
theorem explicit_only_ignores_implications
    (rootPath : String) (fileStore : FileStore)
    (implicationsResult1 implicationsResult2 : Except String (List Implication))
    (expression : Expression) (path sort : String) :
    QueryFiles rootPath ⟨fileStore, implicationsResult1⟩ expression path true sort =
      QueryFiles rootPath ⟨fileStore, implicationsResult2⟩ expression path true sort ∧
    QueryFileCount rootPath ⟨fileStore, implicationsResult1⟩ expression path true =
      QueryFileCount rootPath ⟨fileStore, implicationsResult2⟩ expression path true :=
  ⟨rfl, rfl⟩

/-- Closed form of the condition/parameter loop once at least one clause has
been appended: every remaining pair contributes an `   OR `-prefixed clause
and its two parameters, in input order. -/
theorem implicationsForLoop_from_one :
    ∀ (pairs : List TagValuePair) (index : Nat) (sql : String) (params : List Nat),
      0 < index →
      implicationsForLoop pairs index sql params =
        (sql ++ orChain pairs.length,
          params ++ pairs.flatMap fun p => [p.tagId, p.valueId]) := by
  intro pairs
  induction pairs with
  | nil =>
    intro index sql params hpos
    simp [implicationsForLoop, orChain]
  | cons p rest ih =>
    intro index sql params hpos
    simp only [implicationsForLoop]
    rw [if_pos hpos]
    rw [ih (index + 1) _ _ (by omega)]
    simp [orChain, String.append_assoc, List.append_assoc]

/-- Closed form of `ImplicationsFor`'s building loop from its initial state:
the WHERE condition is a disjunction with exactly one equality clause per
pair, and the parameters are each pair's tag and value id in input order. -/
theorem implicationsForLoop_closed_form (pairs : List TagValuePair) :
    implicationsForLoop pairs 0 implicationsForSqlBase [] =
      (implicationsForSqlBase ++ disjunctionOf pairs.length,
        pairs.flatMap fun p => [p.tagId, p.valueId]) := by
  cases pairs with
  | nil => simp [implicationsForLoop, disjunctionOf]
  | cons p rest =>
    simp only [implicationsForLoop]
    rw [if_neg (by omega)]
    rw [implicationsForLoop_from_one rest 1 _ _ (by omega)]
    simp [disjunctionOf, String.append_assoc]

/-- A non-empty disjunction is non-empty text. -/
theorem disjunctionOf_length_pos (n : Nat) (hn : 0 < n) :
    0 < (disjunctionOf n).length := by
  cases n with
  | zero => omega
  | succ m =>
    have hc : 0 < implicationClause.length := by decide
    simp only [disjunctionOf, String.length_append]
    omega

/-- C10: called with no tag-value pairs, `ImplicationsFor` builds a query
whose `WHERE` keyword is followed by no condition, so the call fails with a
storage error instead of returning the empty implication set; for every
non-empty input the condition is a disjunction with exactly one
`(tag_id, value_id)` equality clause per pair, parameters in input order. -/
theorem implications_for_condition :
    ImplicationsFor [] = Except.error "SQL syntax error near ORDER" ∧
    ∀ pairs : List TagValuePair, pairs ≠ [] →
      ImplicationsFor pairs =
        Except.ok
          (implicationsForSqlBase ++ disjunctionOf pairs.length ++
            implicationsForOrderBy,
          pairs.flatMap fun p => [p.tagId, p.valueId]) := by
  constructor
  · simp only [ImplicationsFor, implicationsForLoop]
    rw [if_pos trivial]
  · intro pairs hne
    have hlen : 0 < pairs.length := List.length_pos.mpr hne
    have hneq : ¬(implicationsForSqlBase ++ disjunctionOf pairs.length =
        implicationsForSqlBase) := by
      intro heq
      have hl := congrArg String.length heq
      rw [String.length_append] at hl
      have hd := disjunctionOf_length_pos pairs.length hlen
      omega
    simp only [ImplicationsFor]
    rw [implicationsForLoop_closed_form]
    dsimp only
    rw [if_neg hneq]

/-- Witness for C10 at a concrete two-pair input. -/
theorem implications_for_condition_witness :
    ImplicationsFor [⟨1, 0⟩, ⟨2, 5⟩] =
      Except.ok
        (implicationsForSqlBase ++ disjunctionOf 2 ++ implicationsForOrderBy,
        [1, 0, 2, 5]) := by
  have h := implications_for_condition.2 [⟨1, 0⟩, ⟨2, 5⟩] (by decide)
  simpa using h
